import Mathlib

/-!
Verification development for a streaming ZIP archive encoder (client-zip fork).

The repository ships only the test suite and documentation for the encoder; the
encoder itself (crc32 engine, record assembler, file-data pump, orchestrator,
size predictor and the makeZip family of entry points) is not present under
src/.  Every operation below is therefore modelled from the specification
(spec.md sections 4 to 7), with the test files used to pin concrete byte
layouts.  Bytes are lists of Nat, machine integers are Nat with explicit
truncation through the little-endian serializers, and the pull-driven stream
is a list of chunks produced by a state-passing fold over the entries.
-/

/-- Little-endian serialization of a 16-bit value (two bytes). -/
def le16 (v : Nat) : List Nat := [v % 256, v / 256 % 256]

/-- Little-endian serialization of a 32-bit value (four bytes). -/
def le32 (v : Nat) : List Nat :=
  [v % 256, v / 256 % 256, v / 65536 % 256, v / 16777216 % 256]

/-- Little-endian serialization of a 64-bit value (eight bytes). -/
def le64 (v : Nat) : List Nat :=
  [v % 256, v / 256 % 256, v / 65536 % 256, v / 16777216 % 256,
   v / 4294967296 % 256, v / 1099511627776 % 256,
   v / 281474976710656 % 256, v / 72057594037927936 % 256]

/-- Modelled from the spec: one shift-xor round of the CRC-32 table
construction over the reflected polynomial 0xEDB88320 (spec 4.1). -/
def crcStep (c : Nat) : Nat :=
  if c % 2 = 1 then 0xEDB88320 ^^^ (c / 2) else c / 2

/-- Iterate `crcStep` a fixed number of times. -/
def crcRounds : Nat → Nat → Nat
  | 0, c => c
  | k + 1, c => crcRounds k (crcStep c)

/-- Modelled from the spec: entry `n` of the precomputed CRC-32 table
(eight rounds of the polynomial step; spec 4.1). -/
def crcTable (n : Nat) : Nat := crcRounds 8 n

/-- The byte-folding loop of the CRC engine, acting on the inverted
running state. -/
def crc32Aux : List Nat → Nat → Nat
  | [], c => c
  | b :: rest, c => crc32Aux rest ((c / 256) ^^^ crcTable ((c ^^^ b) % 256))

/-- Modelled from the spec: `crc32(bytes, seed)` with initial and final
xor against 0xFFFFFFFF; the seed carries the inverted running state
across chunks (spec 4.1). -/
def crc32 (bytes : List Nat) (seed : Nat) : Nat :=
  crc32Aux bytes (seed ^^^ 0xFFFFFFFF) ^^^ 0xFFFFFFFF

/-- Modelled from the spec: DOS time word — seconds/2 in bits 0-4,
minutes in bits 5-10, hours in bits 11-15 (spec 4.2). -/
def dosTimeOf (hour minute second : Nat) : Nat :=
  second / 2 ||| (minute <<< 5) ||| (hour <<< 11)

/-- Modelled from the spec: DOS date word — day in bits 0-4, month in
bits 5-8, year-1980 in bits 9-15 (spec 4.2). -/
def dosDateOf (year month day : Nat) : Nat :=
  day ||| (month <<< 5) ||| ((year - 1980) <<< 9)

/-- A normalized entry (spec section 3): encoded name bytes, whether the
name was supplied as raw bytes, file/folder bit, packed DOS date-time,
POSIX mode, the drained payload bytes, and the optional declared size
used by the predictor. -/
structure ZipItem where
  encodedName : List Nat
  nameIsBuffer : Bool
  isFile : Bool
  dosTime : Nat
  dosDate : Nat
  mode : Nat
  data : List Nat
  declaredSize : Option Nat
deriving DecidableEq

/-- Bytes drained from an entry's source: the payload for files, nothing
for folders (folders have no byte source). -/
def entrySize (e : ZipItem) : Nat := if e.isFile then e.data.length else 0

/-- CRC-32 of the drained payload (0 for folders). -/
def crcOf (e : ZipItem) : Nat := crc32 (if e.isFile then e.data else []) 0

/-- Modelled from the spec: the UTF-8 general-purpose flag bit (bit 11,
0x800), set when the name was supplied as text, or when raw-byte names
are declared UTF-8 via the buffersAreUTF8 option (spec 4.3, 9). -/
def utf8Flag (buffersAreUTF8 : Bool) (e : ZipItem) : Nat :=
  if !e.nameIsBuffer || buffersAreUTF8 then 0x800 else 0

/-- The full general-purpose flag word: bit 3 (data descriptor) is always
set, or-ed with the UTF-8 bit (spec 4.3). -/
def flagsOf (u8 : Bool) (e : ZipItem) : Nat := 8 ||| utf8Flag u8 e

/-- Modelled from the spec: an entry triggers per-entry ZIP64 iff the
uncompressed size, the compressed size (equal under STORE) or the local
header offset reaches 2^32 (spec 4.5, 9). -/
def entryZip64Of (s off : Nat) : Bool :=
  decide (4294967296 ≤ s) || decide (4294967296 ≤ off)

/-- The per-entry ZIP64 trigger on an actual entry. -/
def entryNeedsZip64 (e : ZipItem) (off : Nat) : Bool :=
  entryZip64Of (entrySize e) off

/-- 16-bit sentinel rule: 0xFFFF iff the true value exceeds the field
maximum (spec 4.5). -/
def sentinel16 (v : Nat) : Nat := if 65536 ≤ v then 65535 else v

/-- 32-bit sentinel rule: 0xFFFFFFFF iff the true value exceeds the field
maximum (spec 4.5). -/
def sentinel32 (v : Nat) : Nat := if 4294967296 ≤ v then 4294967295 else v

/-- External file attributes: mode in the high 16 bits, folder bit 0x10
for directories (spec 4.3). -/
def externalAttrs (e : ZipItem) : Nat :=
  e.mode * 65536 + (if e.isFile then 0 else 16)

/-- Modelled from the spec: the 30-byte fixed part of a local file header
(signature 0x04034b50, version needed 4.5, flags with bit 3 plus the
caller-provided extra flag word, method STORE, DOS date-time, zero CRC
and sizes, name length, zero extra length); the name bytes follow as a
separate chunk (spec 4.3). -/
def fileHeader (e : ZipItem) (extraFlags : Nat) : List Nat :=
  le32 0x04034b50 ++ le16 0x2D ++ le16 (8 ||| extraFlags) ++ le16 0 ++
  le16 e.dosTime ++ le16 e.dosDate ++ le32 0 ++ le32 0 ++ le32 0 ++
  le16 e.encodedName.length ++ le16 0

/-- Modelled from the spec: trailing data descriptor — signature
0x08074b50, CRC, then 64-bit sizes when the entry triggered ZIP64 and
32-bit sizes otherwise (spec 4.3). -/
def dataDescriptor (e : ZipItem) (off : Nat) : List Nat :=
  le32 0x08074b50 ++ le32 (crcOf e) ++
  (if entryNeedsZip64 e off then le64 (entrySize e) ++ le64 (entrySize e)
   else le32 (entrySize e) ++ le32 (entrySize e))

/-- Modelled from the spec: ZIP64 extended information field — tag 1,
payload size 24, then uncompressed size, compressed size and local
header offset as 64-bit values, always all three together (spec 4.3). -/
def zip64ExtraField (usize csize off : Nat) : List Nat :=
  le16 1 ++ le16 24 ++ le64 usize ++ le64 csize ++ le64 off

/-- Modelled from the spec: a central directory header — signature
0x02014b50, version made by 0x032D, version needed 0x2D, the local
header's flags, method STORE, DOS date-time, CRC, sizes and offset with
per-field 0xFFFFFFFF sentinels, external attributes, then the name and
the ZIP64 extra field when the entry triggered ZIP64 (spec 4.3). -/
def centralHeader (e : ZipItem) (flags off : Nat) : List Nat :=
  le32 0x02014b50 ++ le16 0x032D ++ le16 0x2D ++ le16 flags ++ le16 0 ++
  le16 e.dosTime ++ le16 e.dosDate ++ le32 (crcOf e) ++
  le32 (sentinel32 (entrySize e)) ++ le32 (sentinel32 (entrySize e)) ++
  le16 e.encodedName.length ++
  le16 (if entryNeedsZip64 e off then 28 else 0) ++
  le16 0 ++ le16 0 ++ le16 0 ++
  le32 (externalAttrs e) ++ le32 (sentinel32 off) ++
  e.encodedName ++
  (if entryNeedsZip64 e off then zip64ExtraField (entrySize e) (entrySize e) off else [])

/-- Modelled from the spec: ZIP64 end-of-central-directory record —
signature 0x06064b50, size of record 44, versions, zero disks, entry
counts, central directory size and offset (spec 4.3). -/
def zip64EndRecord (count cdSize cdOffset : Nat) : List Nat :=
  le32 0x06064b50 ++ le64 44 ++ le16 0x032D ++ le16 0x2D ++ le32 0 ++ le32 0 ++
  le64 count ++ le64 count ++ le64 cdSize ++ le64 cdOffset

/-- Modelled from the spec: ZIP64 end-of-central-directory locator —
signature 0x07064b50, disk 0, offset of the ZIP64 record, one disk in
total (spec 4.3). -/
def zip64Locator (zip64EndOffset : Nat) : List Nat :=
  le32 0x07064b50 ++ le32 0 ++ le64 zip64EndOffset ++ le32 1

/-- Modelled from the spec: classic end-of-central-directory record —
signature 0x06054b50, zero disk fields, entry counts with 0xFFFF
sentinels, central directory size and offset with 0xFFFFFFFF sentinels,
zero-length comment (spec 4.3). -/
def endRecord (count cdSize cdOffset : Nat) : List Nat :=
  le32 0x06054b50 ++ le16 0 ++ le16 0 ++
  le16 (sentinel16 count) ++ le16 (sentinel16 count) ++
  le32 (sentinel32 cdSize) ++ le32 (sentinel32 cdOffset) ++ le16 0

/-- Error kinds of the encoder (spec section 7): external aborts carry
the token's optional reason; malformed input carries a message. -/
inductive ZipError where
  | aborted (reason : Option Nat)
  | malformedInput (msg : String)
deriving DecidableEq

/-- The message produced when the drained total contradicts the declared
lastPartSize (spec 4.4). -/
def invalidLastPartMsg : String := "Invalid lastPartSize"

/-- Fuel-indexed greedy splitter behind the firstPartSize shaping: emit
chunks of exactly `f` bytes while strictly more than `f` bytes remain,
then one final chunk with whatever remains. -/
def splitGo : Nat → Nat → List Nat → List (List Nat)
  | 0, _, b => [b]
  | fuel + 1, f, b =>
    if b.length ≤ f ∨ f = 0 then [b]
    else b.take f :: splitGo fuel f (b.drop f)

/-- Modelled from the spec: the pump's firstPartSize chunk shaping —
chunks of exactly `f` bytes until the remainder falls to at most `f`,
then one final chunk (spec 4.4). -/
def splitWithFirst (f : Nat) (b : List Nat) : List (List Nat) :=
  splitGo b.length f b

/-- Length of the final emitted chunk (0 when nothing was emitted). -/
def lastChunkLen : List (List Nat) → Nat
  | [] => 0
  | [c] => c.length
  | _ :: rest => lastChunkLen rest

/-- Modelled from the spec: the file-data pump — drains the source
chunks, reshapes them according to firstPartSize, verifies lastPartSize
against the final emitted chunk, and finalizes the uncompressed size and
CRC of the drained bytes; on a lastPartSize mismatch it fails with
MalformedInput (spec 4.4). Returns (chunks, uncompressedSize, crc). -/
def fileData (src : List (List Nat)) (firstPartSize lastPartSize : Option Nat) :
    Except ZipError (List (List Nat) × Nat × Nat) :=
  let out := match firstPartSize with
    | none => src
    | some f => splitWithFirst f src.flatten
  match lastPartSize with
  | some l =>
    if lastChunkLen out = l then Except.ok (out, src.flatten.length, crc32 src.flatten 0)
    else Except.error (ZipError.malformedInput invalidLastPartMsg)
  | none => Except.ok (out, src.flatten.length, crc32 src.flatten 0)

/-- One emitted record of the orchestrator's output trace, tagged by its
role in the archive layout and carrying its bytes. -/
inductive ZRec where
  | localHeader (bytes : List Nat)
  | nameChunk (bytes : List Nat)
  | payload (bytes : List Nat)
  | descriptor (bytes : List Nat)
  | centralDir (bytes : List Nat)
  | zip64End (bytes : List Nat)
  | zip64Loc (bytes : List Nat)
  | endOfCentralDir (bytes : List Nat)
deriving DecidableEq

/-- The bytes carried by a record. -/
def ZRec.bytes : ZRec → List Nat
  | .localHeader b => b
  | .nameChunk b => b
  | .payload b => b
  | .descriptor b => b
  | .centralDir b => b
  | .zip64End b => b
  | .zip64Loc b => b
  | .endOfCentralDir b => b

/-- Whether a record is the classic end-of-central-directory record. -/
def ZRec.isEnd : ZRec → Bool
  | .endOfCentralDir _ => true
  | _ => false

/-- Orchestrator state (spec section 3): running byte offset, number of
completed entries, the append-only central-directory snapshot, and the
archive-wide ZIP64 flag. -/
structure ZipState where
  offset : Nat
  fileCount : Nat
  central : List Nat
  needsZip64 : Bool
deriving DecidableEq

/-- The state of a fresh, unresumed archive. -/
def initState : ZipState := ⟨0, 0, [], false⟩

/-- Modelled from the spec: the chunks emitted for one entry — local
header, name bytes, then payload and data descriptor for files (folders
emit neither; spec 4.5). -/
def entryRecs (u8 : Bool) (off : Nat) (e : ZipItem) : List ZRec :=
  [ZRec.localHeader (fileHeader e (utf8Flag u8 e)), ZRec.nameChunk e.encodedName] ++
  (if e.isFile then [ZRec.payload e.data, ZRec.descriptor (dataDescriptor e off)] else [])

/-- Total bytes emitted for one entry starting at offset `off`. -/
def entryLen (off : Nat) (e : ZipItem) : Nat :=
  30 + e.encodedName.length +
  (if e.isFile then entrySize e + (if entryNeedsZip64 e off then 24 else 16) else 0)

/-- Modelled from the spec: state update after one entry — advance
bytesEmitted, increment fileCount, append the entry's central header to
the snapshot, and accumulate the ZIP64 trigger (spec 4.5 steps 3-7). -/
def stepState (u8 : Bool) (st : ZipState) (e : ZipItem) : ZipState :=
  ⟨st.offset + entryLen st.offset e,
   st.fileCount + 1,
   st.central ++ centralHeader e (flagsOf u8 e) st.offset,
   st.needsZip64 || entryNeedsZip64 e st.offset⟩

/-- Fold the per-entry state update over a list of entries. -/
def foldState (u8 : Bool) (st : ZipState) (L : List ZipItem) : ZipState :=
  L.foldl (stepState u8) st

/-- The per-entry portion of the output trace, threading the state. -/
def entriesTraceFrom (u8 : Bool) (st : ZipState) : List ZipItem → List ZRec
  | [] => []
  | e :: rest => entryRecs u8 st.offset e ++ entriesTraceFrom u8 (stepState u8 st e) rest

/-- Modelled from the spec: archive-wide ZIP64 is required iff some entry
triggered it, or the central directory offset or size reaches 2^32, or
the entry count reaches 2^16 (spec property P7). -/
def archiveZip64Of (off cl : Nat) (nz : Bool) (fc : Nat) : Bool :=
  nz || decide (4294967296 ≤ off) || decide (4294967296 ≤ cl) || decide (65536 ≤ fc)

/-- The archive-wide ZIP64 trigger on the orchestrator state. -/
def archiveZip64 (st : ZipState) : Bool :=
  archiveZip64Of st.offset st.central.length st.needsZip64 st.fileCount

/-- Modelled from the spec: finalization — emit the central directory
snapshot, the ZIP64 record and locator when required, and the classic
end record last (spec 4.5 steps 10-12). -/
def finalRecs (st : ZipState) : List ZRec :=
  (ZRec.centralDir st.central ::
    (if archiveZip64 st then
      [ZRec.zip64End (zip64EndRecord st.fileCount st.central.length st.offset),
       ZRec.zip64Loc (zip64Locator (st.offset + st.central.length))]
     else [])) ++
  [ZRec.endOfCentralDir (endRecord st.fileCount st.central.length st.offset)]

/-- The full output trace from a given (possibly resumed) state. -/
def zipTraceFrom (u8 : Bool) (st : ZipState) (L : List ZipItem) : List ZRec :=
  entriesTraceFrom u8 st L ++ finalRecs (foldState u8 st L)

/-- The byte chunks of the output stream from a given state. -/
def zipChunksFrom (u8 : Bool) (st : ZipState) (L : List ZipItem) : List (List Nat) :=
  (zipTraceFrom u8 st L).map ZRec.bytes

/-- All bytes produced from a given state. -/
def archiveBytesFrom (u8 : Bool) (st : ZipState) (L : List ZipItem) : List Nat :=
  (zipChunksFrom u8 st L).flatten

/-- The chunk stream of a fresh archive. -/
def makeZipChunks (u8 : Bool) (L : List ZipItem) : List (List Nat) :=
  zipChunksFrom u8 initState L

/-- The complete byte output of a fresh archive. -/
def archiveBytes (u8 : Bool) (L : List ZipItem) : List Nat :=
  (makeZipChunks u8 L).flatten

/-- Modelled from the spec: the size predictor's walk — it mirrors the
orchestrator on declared sizes only, tracking the virtual offset, the
central directory length, the archive-wide ZIP64 flag and the entry
count, and returns none as soon as an item lacks a declared size
(spec 4.6). -/
def predictFrom (off cl : Nat) (nz : Bool) (fc : Nat) : List ZipItem → Option Nat
  | [] =>
    some (off + cl + (if archiveZip64Of off cl nz fc then 76 else 0) + 22)
  | e :: rest =>
    match e.declaredSize with
    | none => none
    | some s =>
      predictFrom
        (off + 30 + e.encodedName.length +
          (if e.isFile then s + (if entryZip64Of s off then 24 else 16) else 0))
        (cl + 46 + e.encodedName.length + (if entryZip64Of s off then 28 else 0))
        (nz || entryZip64Of s off)
        (fc + 1) rest

/-- The size predictor on a fresh archive (spec 4.6). -/
def predictLength (L : List ZipItem) : Option Nat := predictFrom 0 0 false 0 L

/-- Whether some item lacks a declared size. -/
def lacksSize (L : List ZipItem) : Bool := L.any fun e => e.declaredSize.isNone

/-- The entry metadata record delivered to onEntry and the entries
promise (spec section 6). -/
structure ZipEntryMetadata where
  filename : List Nat
  offset : Nat
  dataOffset : Nat
  compressedSize : Nat
  uncompressedSize : Nat
  crc32 : Nat
  compressionMethod : Nat
  flags : Nat
  headerSize : Nat
deriving DecidableEq

/-- Modelled from the spec: the metadata record for one entry, built
from the actual emitted byte counts — the offset is the running byte
count when the local header starts, the data offset is the running byte
count once the header and name chunks are out, and the sizes are the
drained byte counts (STORE; spec 4.5 step 8, section 6). -/
def entryMetaOf (u8 : Bool) (off : Nat) (e : ZipItem) : ZipEntryMetadata :=
  { filename := e.encodedName
    offset := off
    dataOffset := off + (fileHeader e (utf8Flag u8 e)).length + e.encodedName.length
    compressedSize := entrySize e
    uncompressedSize := entrySize e
    crc32 := crcOf e
    compressionMethod := 0
    flags := flagsOf u8 e
    headerSize := (fileHeader e (utf8Flag u8 e)).length + e.encodedName.length }

/-- The metadata records of all entries, threading the state. -/
def entriesMetaFrom (u8 : Bool) (st : ZipState) : List ZipItem → List ZipEntryMetadata
  | [] => []
  | e :: rest => entryMetaOf u8 st.offset e :: entriesMetaFrom u8 (stepState u8 st e) rest

/-- The metadata records of a fresh archive. -/
def makeZipEntriesMeta (u8 : Bool) (L : List ZipItem) : List ZipEntryMetadata :=
  entriesMetaFrom u8 initState L

/-- A byte stream together with the optional predicted total size
(spec section 6). -/
structure ReadableStreamWithSize where
  chunks : List (List Nat)
  size : Option Nat
deriving DecidableEq

/-- Modelled from the spec: make_zip — the chunk stream plus the
predictor's result on the caller-supplied metadata (spec section 6). -/
def makeZip (u8 : Bool) (items metadata : List ZipItem) : ReadableStreamWithSize :=
  ⟨makeZipChunks u8 items, predictLength metadata⟩

/-- The result of make_zip_with_entries: the same stream plus the entry
metadata records resolved when the stream ends (spec section 6). -/
structure ZipWithEntries where
  stream : ReadableStreamWithSize
  entries : List ZipEntryMetadata
deriving DecidableEq

/-- Modelled from the spec: make_zip_with_entries returns the make_zip
stream together with the deferred entry metadata (spec section 6). -/
def makeZipWithEntries (u8 : Bool) (items metadata : List ZipItem) : ZipWithEntries :=
  ⟨makeZip u8 items metadata, makeZipEntriesMeta u8 items⟩

/-- Modelled from the spec: make_zip_iterator with a resume state —
a new orchestration seeded with the saved central-directory snapshot,
previous file count, starting offset and ZIP64 flag (spec 4.7). -/
def makeZipIterator (u8 : Bool) (resume : ZipState) (items : List ZipItem) :
    List (List Nat) :=
  zipChunksFrom u8 resume items

/-- The phase-1 bytes of a paused run: everything emitted for the first
`k` entries, up to but not including entry `k`'s local header. -/
def phase1Bytes (u8 : Bool) (L : List ZipItem) (k : Nat) : List Nat :=
  ((entriesTraceFrom u8 initState (L.take k)).map ZRec.bytes).flatten

/-- Modelled from the spec: the pull-driven producer under an abort
token — before producing element `i` the token is consulted; once it
reports aborted the stream fails with the Aborted error carrying the
token's optional reason and produces nothing further (spec 4.5 step 1,
section 5). -/
def runWithAbort {α : Type} (tok : Nat → Option (Option Nat)) :
    Nat → List α → List α × Option ZipError
  | _, [] => ([], none)
  | i, c :: rest =>
    match tok i with
    | some r => ([], some (ZipError.aborted r))
    | none =>
      let p := runWithAbort tok (i + 1) rest
      (c :: p.1, p.2)

/-- How often the classic end record occurs in a trace. -/
def endCount (tr : List ZRec) : Nat := tr.countP fun r => r.isEnd

/-- Whether the last record of a trace is the classic end record. -/
def lastIsEnd (tr : List ZRec) : Bool :=
  match tr.getLast? with
  | some r => r.isEnd
  | none => false

/-- Number of occurrences of a byte pattern inside a byte list. -/
def countOcc (pat : List Nat) : List Nat → Nat
  | [] => 0
  | b :: rest => (if pat.isPrefixOf (b :: rest) then 1 else 0) + countOcc pat rest

/-- The file entry of scenario S4: name APPNOTE.TXT, modification date
2019-04-26T02:00, default options. -/
def apnoteItem : ZipItem :=
  ⟨[65, 80, 80, 78, 79, 84, 69, 46, 84, 88, 84], false, true,
   dosTimeOf 2 0 0, dosDateOf 2019 4 26, 0o664, [], none⟩

/-- A small concrete file entry used by witnesses. -/
def helloItem : ZipItem :=
  ⟨[104, 105], false, true, dosTimeOf 11 24 18, dosDateOf 2020 2 15, 0o664,
   [1, 2, 3], some 3⟩

/-- A file entry whose stored payload spells the end-of-central-directory
signature bytes. -/
def sigItem : ZipItem :=
  ⟨[97], false, true, 0, 0, 0o664, [80, 75, 5, 6], none⟩

/-- A file entry lacking a declared size. -/
def nosizeItem : ZipItem :=
  ⟨[98], false, true, 0, 0, 0o664, [7, 8], none⟩

/-! Length facts about the serializers and records. -/

@[simp] theorem le16_length (v : Nat) : (le16 v).length = 2 := rfl

@[simp] theorem le32_length (v : Nat) : (le32 v).length = 4 := rfl

@[simp] theorem le64_length (v : Nat) : (le64 v).length = 8 := rfl

@[simp] theorem fileHeader_length (e : ZipItem) (fl : Nat) :
    (fileHeader e fl).length = 30 := rfl

theorem dataDescriptor_length (e : ZipItem) (off : Nat) :
    (dataDescriptor e off).length = if entryNeedsZip64 e off then 24 else 16 := by
  by_cases h : entryNeedsZip64 e off <;> simp [dataDescriptor, h, le32, le64]

@[simp] theorem zip64ExtraField_length (u c o : Nat) :
    (zip64ExtraField u c o).length = 28 := rfl

theorem centralHeader_length (e : ZipItem) (fl off : Nat) :
    (centralHeader e fl off).length
      = 46 + e.encodedName.length + (if entryNeedsZip64 e off then 28 else 0) := by
  by_cases h : entryNeedsZip64 e off <;>
    simp [centralHeader, h, zip64ExtraField, le16, le32, le64] <;> omega

@[simp] theorem endRecord_length (c s o : Nat) : (endRecord c s o).length = 22 := rfl

@[simp] theorem zip64EndRecord_length (c s o : Nat) :
    (zip64EndRecord c s o).length = 56 := rfl

@[simp] theorem zip64Locator_length (z : Nat) : (zip64Locator z).length = 20 := rfl

theorem entryRecs_bytesLen (u8 : Bool) (off : Nat) (e : ZipItem) :
    (((entryRecs u8 off e).map ZRec.bytes).flatten).length = entryLen off e := by
  by_cases hf : e.isFile <;> by_cases hz : entryNeedsZip64 e off <;>
    simp [entryRecs, entryLen, entrySize, hf, hz, ZRec.bytes, dataDescriptor_length] <;>
    omega

theorem finalRecs_bytesLen (st : ZipState) :
    (((finalRecs st).map ZRec.bytes).flatten).length
      = st.central.length + (if archiveZip64 st then 76 else 0) + 22 := by
  by_cases h : archiveZip64 st <;> simp [finalRecs, h, ZRec.bytes]

/-! CRC-32 chaining. -/

theorem crc32Aux_append (a b : List Nat) :
    ∀ c, crc32Aux (a ++ b) c = crc32Aux b (crc32Aux a c) := by
  induction a with
  | nil => intro c; rfl
  | cons x rest ih => intro c; simpa [crc32Aux] using ih _

theorem xor_mask_cancel (x : Nat) : x ^^^ 0xFFFFFFFF ^^^ 0xFFFFFFFF = x := by
  rw [Nat.xor_assoc, Nat.xor_self, Nat.xor_zero]

theorem crc32_append (a b : List Nat) (s : Nat) :
    crc32 b (crc32 a s) = crc32 (a ++ b) s := by
  unfold crc32
  rw [xor_mask_cancel, crc32Aux_append]

theorem crc32_foldl (chunks : List (List Nat)) :
    ∀ (a : List Nat) (s : Nat),
      List.foldl (fun seed chunk => crc32 chunk seed) (crc32 a s) chunks
        = crc32 (a ++ chunks.flatten) s := by
  induction chunks with
  | nil => intro a s; simp
  | cons c rest ih =>
    intro a s
    have h1 : List.foldl (fun seed chunk => crc32 chunk seed) (crc32 a s) (c :: rest)
        = List.foldl (fun seed chunk => crc32 chunk seed) (crc32 (a ++ c) s) rest := by
      simp [List.foldl_cons, crc32_append]
    rw [h1, ih]
    simp [List.append_assoc]

/-- Claim C8: folding crc32 over consecutive chunks, feeding each result
back as the seed of the next call, equals a single-shot crc32 of the
whole sequence with seed 0; and the CRC of the empty sequence with
seed 0 is 0. -/
theorem crc32_chunk_chaining (chunks : List (List Nat)) :
    List.foldl (fun seed chunk => crc32 chunk seed) 0 chunks = crc32 chunks.flatten 0
    ∧ crc32 [] 0 = 0 := by
  have h0 : crc32 [] 0 = 0 := by decide
  refine ⟨?_, h0⟩
  have h := crc32_foldl chunks [] 0
  rw [h0] at h
  simpa using h

/-- Claim C4 (counterexample): the byte string listed by the claim (and
by scenario S4 of the spec) contains 32 bytes — fourteen zero bytes
between the DOS date and the name-length field — so the local file
header produced for the APPNOTE.TXT entry under default options is not
that sequence followed by the name bytes. -/
theorem local_header_appnote_counterexample :
    fileHeader apnoteItem 0 ++ apnoteItem.encodedName ≠
      [0x50, 0x4b, 0x03, 0x04, 0x2d, 0x00, 0x08, 0x00, 0x00, 0x00, 0x00, 0x10,
       0x9a, 0x4e, 0x00, 0x00, 0x00, 0x00, 0x00, 0x00, 0x00, 0x00, 0x00, 0x00,
       0x00, 0x00, 0x00, 0x00, 0x0b, 0x00, 0x00, 0x00] ++ apnoteItem.encodedName := by
  decide

/-- Claim C4 (amended): the local file header produced for a file entry
named APPNOTE.TXT with modification date 2019-04-26T02:00 and default
options is exactly the 30 bytes 50 4b 03 04 2d 00 08 00 00 00 00 10
9a 4e followed by twelve zero bytes (CRC and both sizes), 0b 00 (name
length 11) and 00 00 (extra length 0), followed by the 11 name bytes. -/
theorem local_header_appnote :
    fileHeader apnoteItem 0 ++ apnoteItem.encodedName =
      [0x50, 0x4b, 0x03, 0x04, 0x2d, 0x00, 0x08, 0x00, 0x00, 0x00, 0x00, 0x10,
       0x9a, 0x4e, 0x00, 0x00, 0x00, 0x00, 0x00, 0x00, 0x00, 0x00, 0x00, 0x00,
       0x00, 0x00, 0x0b, 0x00, 0x00, 0x00,
       0x41, 0x50, 0x50, 0x4e, 0x4f, 0x54, 0x45, 0x2e, 0x54, 0x58, 0x54] := by
  decide

/-- Claim C10: make_zip and make_zip_with_entries expose the same
predicted size value for the same item list and the same declared-size
metadata — the two public entry points share one predictor. -/
theorem shared_size_predictor (u8 : Bool) (items metadata : List ZipItem) :
    (makeZip u8 items metadata).size
      = (makeZipWithEntries u8 items metadata).stream.size := rfl

/-! The pump's chunk shaping. -/

theorem splitGo_flatten : ∀ (fuel f : Nat) (b : List Nat),
    (splitGo fuel f b).flatten = b := by
  intro fuel
  induction fuel with
  | zero => intro f b; simp [splitGo]
  | succ n ih =>
    intro f b
    unfold splitGo
    split
    · simp
    · simp [ih]

theorem splitGo_ne_nil (fuel f : Nat) (b : List Nat) : splitGo fuel f b ≠ [] := by
  cases fuel with
  | zero => simp [splitGo]
  | succ n => unfold splitGo; split <;> simp

theorem lastChunkLen_cons (c : List Nat) (rest : List (List Nat)) (h : rest ≠ []) :
    lastChunkLen (c :: rest) = lastChunkLen rest := by
  cases rest with
  | nil => exact absurd rfl h
  | cons d t => rfl

theorem splitGo_last_exists : ∀ (fuel f : Nat) (b : List Nat), b.length ≤ fuel →
    ∃ K, b.length = f * K + lastChunkLen (splitGo fuel f b) := by
  intro fuel
  induction fuel with
  | zero => intro f b _; exact ⟨0, by simp [splitGo, lastChunkLen]⟩
  | succ n ih =>
    intro f b hb
    unfold splitGo
    split
    · exact ⟨0, by simp [lastChunkLen]⟩
    · rename_i hcond
      push_neg at hcond
      obtain ⟨hgt, hf0⟩ := hcond
      obtain ⟨K, hK⟩ := ih f (b.drop f) (by rw [List.length_drop]; omega)
      refine ⟨K + 1, ?_⟩
      rw [lastChunkLen_cons _ _ (splitGo_ne_nil _ _ _)]
      rw [List.length_drop] at hK
      have hb' : b.length = (b.length - f) + f := by omega
      rw [hb', hK, Nat.mul_succ]
      ring

theorem splitGo_shape : ∀ (K fuel f l : Nat) (b : List Nat),
    b.length = f * K + l → 1 ≤ l → l ≤ f → b.length ≤ fuel →
    (splitGo fuel f b).map List.length = List.replicate K f ++ [l] := by
  intro K
  induction K with
  | zero =>
    intro fuel f l b hlen hl1 hlf hfuel
    simp only [Nat.mul_zero, Nat.zero_add] at hlen
    cases fuel with
    | zero => omega
    | succ n =>
      unfold splitGo
      rw [if_pos (Or.inl (by omega))]
      simp [hlen]
  | succ K ih =>
    intro fuel f l b hlen hl1 hlf hfuel
    have hsplit : b.length = f * K + f + l := by rw [hlen]; ring
    cases fuel with
    | zero => omega
    | succ n =>
      unfold splitGo
      rw [if_neg (by push_neg; omega)]
      have htake : (b.take f).length = f := by rw [List.length_take]; omega
      have hdl : (b.drop f).length = f * K + l := by rw [List.length_drop]; omega
      have ih' := ih n f l (b.drop f) hdl hl1 hlf (by rw [List.length_drop]; omega)
      simp only [List.map_cons, ih', htake, List.replicate_succ, List.cons_append]

theorem splitWithFirst_last_exists (f : Nat) (b : List Nat) :
    ∃ K, b.length = f * K + lastChunkLen (splitWithFirst f b) :=
  splitGo_last_exists b.length f b le_rfl

theorem lastChunkLen_of_shape : ∀ (out : List (List Nat)) (K f l : Nat),
    out.map List.length = List.replicate K f ++ [l] → lastChunkLen out = l := by
  intro out
  induction out with
  | nil =>
    intro K f l h
    exfalso
    have hh := congrArg List.length h
    simp at hh
  | cons c rest ih =>
    intro K f l h
    cases rest with
    | nil =>
      cases K with
      | zero => simpa [lastChunkLen] using h
      | succ m =>
        exfalso
        have hh := congrArg List.length h
        simp at hh
    | cons d t =>
      cases K with
      | zero =>
        exfalso
        have hh := congrArg List.length h
        simp at hh
      | succ m =>
        rw [List.replicate_succ, List.cons_append] at h
        have htl : (d :: t).map List.length = List.replicate m f ++ [l] := by
          injection h
        have hstep : lastChunkLen (c :: d :: t) = lastChunkLen (d :: t) := rfl
        rw [hstep]
        exact ih m f l htl

/-- Claim C5 (counterexample): with firstPartSize 1 and lastPartSize 2
over a 2-byte source the drained total does satisfy N = f*K + l (with
K = 0), yet the pump fails with MalformedInput (Invalid lastPartSize),
because the greedy shaping of spec 4.4 emits 1-byte chunks until at most
one byte remains, so the final chunk can never be larger than
firstPartSize. -/
theorem fileData_lastPartSize_counterexample :
    ([[0, 0]] : List (List Nat)).flatten.length = 1 * 0 + 2
    ∧ fileData [[0, 0]] (some 1) (some 2)
        = Except.error (ZipError.malformedInput invalidLastPartMsg) :=
  ⟨rfl, rfl⟩

/-- Claim C5 (amended): when the drained total is N = f*K + l with
1 ≤ l ≤ f, the pump emits exactly K chunks of exactly f bytes followed
by one final chunk of exactly l bytes, re-emitting the drained bytes
unchanged and recording the correct uncompressedSize and CRC; when no
K ≥ 0 satisfies N = f*K + l the pump fails with MalformedInput
(Invalid lastPartSize). -/
theorem fileData_part_sizes
    (src src2 : List (List Nat)) (f l f2 l2 K : Nat)
    (hlen : src.flatten.length = f * K + l) (hl1 : 1 ≤ l) (hlf : l ≤ f)
    (hmiss : ∀ K2, src2.flatten.length ≠ f2 * K2 + l2) :
    fileData src (some f) (some l)
        = Except.ok (splitWithFirst f src.flatten, src.flatten.length, crc32 src.flatten 0)
    ∧ (splitWithFirst f src.flatten).map List.length = List.replicate K f ++ [l]
    ∧ (splitWithFirst f src.flatten).flatten = src.flatten
    ∧ fileData src2 (some f2) (some l2)
        = Except.error (ZipError.malformedInput invalidLastPartMsg) := by
  have hshape : (splitWithFirst f src.flatten).map List.length
      = List.replicate K f ++ [l] :=
    splitGo_shape K src.flatten.length f l src.flatten hlen hl1 hlf le_rfl
  have hlast : lastChunkLen (splitWithFirst f src.flatten) = l :=
    lastChunkLen_of_shape _ K f l hshape
  refine ⟨?_, hshape, splitGo_flatten _ _ _, ?_⟩
  · simp [fileData, hlast]
  · obtain ⟨K2, hK2⟩ := splitWithFirst_last_exists f2 src2.flatten
    have hne : lastChunkLen (splitWithFirst f2 src2.flatten) ≠ l2 := by
      intro he
      rw [he] at hK2
      exact hmiss K2 hK2
    simp [fileData, hne]

/-- The 21 bytes 0..20, used as a concrete pump source. -/
def bytes21 : List Nat := List.range 21

theorem fileData_part_sizes_witness :
    fileData [bytes21] (some 8) (some 5)
        = Except.ok (splitWithFirst 8 ([bytes21] : List (List Nat)).flatten,
            ([bytes21] : List (List Nat)).flatten.length,
            crc32 ([bytes21] : List (List Nat)).flatten 0)
    ∧ (splitWithFirst 8 ([bytes21] : List (List Nat)).flatten).map List.length
        = List.replicate 2 8 ++ [5]
    ∧ (splitWithFirst 8 ([bytes21] : List (List Nat)).flatten).flatten
        = ([bytes21] : List (List Nat)).flatten
    ∧ fileData [bytes21] (some 8) (some 6)
        = Except.error (ZipError.malformedInput invalidLastPartMsg) :=
  fileData_part_sizes [bytes21] [bytes21] 8 5 8 6 2 (by decide) (by decide) (by decide)
    (by intro K2; simp [bytes21]; omega)

/-! The pull-driven producer under an abort token. -/

theorem runWithAbort_none {α : Type} (tok : Nat → Option (Option Nat))
    (h : ∀ i, tok i = none) :
    ∀ (l : List α) (i : Nat), runWithAbort tok i l = (l, none) := by
  intro l
  induction l with
  | nil => intro i; rfl
  | cons c rest ih => intro i; simp [runWithAbort, h i, ih (i + 1)]

theorem runWithAbort_firstAbort {α : Type} (tok : Nat → Option (Option Nat)) :
    ∀ (n : Nat) (l : List α) (i : Nat) (r : Option Nat),
      (∀ m, m < n → tok (i + m) = none) → tok (i + n) = some r → n < l.length →
      runWithAbort tok i l = (l.take n, some (ZipError.aborted r)) := by
  intro n
  induction n with
  | zero =>
    intro l i r _ habort hlen
    cases l with
    | nil => simp at hlen
    | cons c rest =>
      rw [Nat.add_zero] at habort
      simp [runWithAbort, habort]
  | succ n ih =>
    intro l i r hnone habort hlen
    cases l with
    | nil => simp at hlen
    | cons c rest =>
      have h0 : tok i = none := by simpa using hnone 0 (Nat.succ_pos n)
      have hshift : ∀ m, m < n → tok (i + 1 + m) = none := by
        intro m hm
        have := hnone (m + 1) (by omega)
        rwa [show i + (m + 1) = i + 1 + m by omega] at this
      have habort' : tok (i + 1 + n) = some r := by
        rwa [show i + 1 + n = i + (n + 1) by omega]
      have hlen' : n < rest.length := by simpa using hlen
      have hrest := ih rest (i + 1) r hshift habort' hlen'
      simp [runWithAbort, h0, hrest]

/-- Claim C6: under an abort token that is never set, the output stream
produces all archive chunks and completes normally; once the token is
aborted (before the first read or between chunks), the read on which the
abort is first observed fails with the Aborted error carrying the
token's optional reason and no further archive bytes are produced. -/
theorem abort_semantics (u8 : Bool) (L : List ZipItem)
    (tokA tokB : Nat → Option (Option Nat)) (n : Nat) (r : Option Nat)
    (ha : ∀ i, tokA i = none)
    (hb1 : ∀ m, m < n → tokB m = none) (hb2 : tokB n = some r)
    (hn : n < (makeZipChunks u8 L).length) :
    runWithAbort tokA 0 (makeZipChunks u8 L) = (makeZipChunks u8 L, none)
    ∧ runWithAbort tokB 0 (makeZipChunks u8 L)
        = ((makeZipChunks u8 L).take n, some (ZipError.aborted r)) := by
  refine ⟨runWithAbort_none tokA ha _ 0, ?_⟩
  exact runWithAbort_firstAbort tokB n (makeZipChunks u8 L) 0 r
    (by intro m hm; simpa using hb1 m hm) (by simpa using hb2) hn

theorem abort_semantics_witness :
    runWithAbort (fun _ => none) 0 (makeZipChunks false [helloItem])
        = (makeZipChunks false [helloItem], none)
    ∧ runWithAbort (fun i => if i = 0 then none else some (some 5)) 0
          (makeZipChunks false [helloItem])
        = ((makeZipChunks false [helloItem]).take 1, some (ZipError.aborted (some 5))) :=
  abort_semantics false [helloItem] (fun _ => none)
    (fun i => if i = 0 then none else some (some 5)) 1 (some 5)
    (fun _ => rfl) (by decide) (by decide) (by decide)

/-! The end-of-central-directory record in the output trace. -/

theorem entryRecs_noEnd (u8 : Bool) (off : Nat) (e : ZipItem) :
    ∀ r ∈ entryRecs u8 off e, r.isEnd = false := by
  intro r hr
  by_cases hf : e.isFile <;> simp [entryRecs, hf] at hr <;>
    rcases hr with rfl | rfl | rfl | rfl <;> rfl

theorem entriesTrace_noEnd (u8 : Bool) :
    ∀ (L : List ZipItem) (st : ZipState), ∀ r ∈ entriesTraceFrom u8 st L, r.isEnd = false := by
  intro L
  induction L with
  | nil => intro st r hr; simp [entriesTraceFrom] at hr
  | cons e rest ih =>
    intro st r hr
    simp only [entriesTraceFrom, List.mem_append] at hr
    rcases hr with hr | hr
    · exact entryRecs_noEnd u8 st.offset e r hr
    · exact ih (stepState u8 st e) r hr

theorem zipTrace_split (u8 : Bool) (st : ZipState) (L : List ZipItem) :
    ∃ pre : List ZRec,
      zipTraceFrom u8 st L
        = pre ++ [ZRec.endOfCentralDir (endRecord (foldState u8 st L).fileCount
            (foldState u8 st L).central.length (foldState u8 st L).offset)]
      ∧ (∀ r ∈ pre, r.isEnd = false) := by
  refine ⟨entriesTraceFrom u8 st L ++
    (ZRec.centralDir (foldState u8 st L).central ::
      (if archiveZip64 (foldState u8 st L) then
        [ZRec.zip64End (zip64EndRecord (foldState u8 st L).fileCount
            (foldState u8 st L).central.length (foldState u8 st L).offset),
         ZRec.zip64Loc (zip64Locator ((foldState u8 st L).offset +
            (foldState u8 st L).central.length))]
       else [])), ?_, ?_⟩
  · simp [zipTraceFrom, finalRecs, List.append_assoc]
  · intro r hr
    simp only [List.mem_append] at hr
    rcases hr with hr | hr
    · exact entriesTrace_noEnd u8 L st r hr
    · by_cases hz : archiveZip64 (foldState u8 st L) <;> simp [hz] at hr
      · rcases hr with rfl | rfl | rfl <;> rfl
      · rw [hr]; rfl

/-- Claim C7 (counterexample): an abort observed on the very first read
is a termination path on which the terminal end-of-central-directory
record is not emitted at all — the stream fails with the Aborted error
and the emitted record list is empty. -/
theorem eocd_missing_on_abort :
    runWithAbort (fun _ => some none) 0 (zipTraceFrom false initState [helloItem])
        = ([], some (ZipError.aborted none))
    ∧ endCount (runWithAbort (fun _ => some none) 0
          (zipTraceFrom false initState [helloItem])).1 ≠ 1 :=
  ⟨rfl, by decide⟩

/-- Claim C7 (amended): on every normally completed run — from a fresh
state or any resumed state — the terminal end-of-central-directory
record is emitted exactly once and as the last record; on an aborted
run the emitted records are a prefix of that trace, so whenever the
prefix contains the terminal record at all it is the whole trace (the
record is never duplicated and never followed by further records); an
abort that cuts the run short emits it not at all. -/
theorem eocd_last_and_once (u8 : Bool) (st : ZipState) (L : List ZipItem) (n : Nat)
    (h : 1 ≤ endCount ((zipTraceFrom u8 st L).take n)) :
    endCount (zipTraceFrom u8 st L) = 1
    ∧ lastIsEnd (zipTraceFrom u8 st L) = true
    ∧ (zipTraceFrom u8 st L).take n = zipTraceFrom u8 st L := by
  obtain ⟨pre, hT, hpre⟩ := zipTrace_split u8 st L
  have hpre0 : pre.countP (fun r => r.isEnd) = 0 :=
    List.countP_eq_zero.mpr (by intro a ha; simp [hpre a ha])
  refine ⟨?_, ?_, ?_⟩
  · rw [endCount, hT, List.countP_append, hpre0]
    simp [List.countP_cons, ZRec.isEnd]
  · rw [lastIsEnd, hT, List.getLast?_concat]
    rfl
  · by_contra hne
    have hlen : n < (zipTraceFrom u8 st L).length := by
      rcases Nat.lt_or_ge n (zipTraceFrom u8 st L).length with h' | h'
      · exact h'
      · exact absurd (List.take_of_length_le h') hne
    have hn : n ≤ pre.length := by
      have hl := congrArg List.length hT
      simp at hl
      omega
    have htake : (zipTraceFrom u8 st L).take n = pre.take n := by
      rw [hT, List.take_append_of_le_length hn]
    rw [htake] at h
    have hzero : (pre.take n).countP (fun r => r.isEnd) = 0 := by
      apply List.countP_eq_zero.mpr
      intro a ha
      have hmem : a ∈ pre := (List.take_sublist n pre).subset ha
      simp [hpre a hmem]
    rw [endCount, hzero] at h
    omega

theorem eocd_last_and_once_witness :
    endCount (zipTraceFrom false initState [helloItem]) = 1
    ∧ lastIsEnd (zipTraceFrom false initState [helloItem]) = true
    ∧ (zipTraceFrom false initState [helloItem]).take 6
        = zipTraceFrom false initState [helloItem] :=
  eocd_last_and_once false initState [helloItem] 6 (by decide)

/-! Entry metadata. -/

theorem entriesMeta_fields (u8 : Bool) :
    ∀ (L : List ZipItem) (st : ZipState) (i : Nat) (m : ZipEntryMetadata) (e : ZipItem),
      (entriesMetaFrom u8 st L)[i]? = some m → L[i]? = some e →
      m.headerSize = 30 + e.encodedName.length
      ∧ m.dataOffset = m.offset + m.headerSize
      ∧ m.compressionMethod = 0
      ∧ m.compressedSize = entrySize e
      ∧ m.uncompressedSize = entrySize e := by
  intro L
  induction L with
  | nil => intro st i m e hm he; simp [entriesMetaFrom] at hm
  | cons f rest ih =>
    intro st i m e hm he
    cases i with
    | zero =>
      simp [entriesMetaFrom] at hm he
      subst hm he
      refine ⟨?_, ?_, rfl, rfl, rfl⟩
      · simp [entryMetaOf, fileHeader_length]
      · simp [entryMetaOf, fileHeader_length]
        omega
    | succ j =>
      rw [show entriesMetaFrom u8 st (f :: rest)
          = entryMetaOf u8 st.offset f :: entriesMetaFrom u8 (stepState u8 st f) rest
          from rfl, List.getElem?_cons_succ] at hm
      rw [List.getElem?_cons_succ] at he
      exact ih (stepState u8 st f) j m e hm he

/-- Claim C9: every entry-metadata record delivered to onEntry (and
resolved by the entries promise) satisfies headerSize = 30 plus the
encoded name length, dataOffset = offset + headerSize,
compressionMethod = 0, and, STORE being the only method, compressedSize
and uncompressedSize both equal the number of bytes drained from the
entry's source. -/
theorem entry_metadata_fields (u8 : Bool) (L : List ZipItem) (i : Nat)
    (m : ZipEntryMetadata) (e : ZipItem)
    (hm : (makeZipEntriesMeta u8 L)[i]? = some m) (he : L[i]? = some e) :
    m.headerSize = 30 + e.encodedName.length
    ∧ m.dataOffset = m.offset + m.headerSize
    ∧ m.compressionMethod = 0
    ∧ m.compressedSize = entrySize e
    ∧ m.uncompressedSize = entrySize e :=
  entriesMeta_fields u8 L initState i m e hm he

theorem entry_metadata_fields_witness :
    (entryMetaOf false 0 helloItem).headerSize = 30 + helloItem.encodedName.length
    ∧ (entryMetaOf false 0 helloItem).dataOffset
        = (entryMetaOf false 0 helloItem).offset + (entryMetaOf false 0 helloItem).headerSize
    ∧ (entryMetaOf false 0 helloItem).compressionMethod = 0
    ∧ (entryMetaOf false 0 helloItem).compressedSize = entrySize helloItem
    ∧ (entryMetaOf false 0 helloItem).uncompressedSize = entrySize helloItem :=
  entry_metadata_fields false [helloItem] 0 (entryMetaOf false 0 helloItem) helloItem rfl rfl

/-! Decomposition of the orchestration fold for pause/resume. -/

theorem foldState_append (u8 : Bool) (st : ZipState) (xs ys : List ZipItem) :
    foldState u8 st (xs ++ ys) = foldState u8 (foldState u8 st xs) ys := by
  simp [foldState, List.foldl_append]

theorem entriesTraceFrom_append (u8 : Bool) (xs ys : List ZipItem) :
    ∀ st : ZipState,
      entriesTraceFrom u8 st (xs ++ ys)
        = entriesTraceFrom u8 st xs ++ entriesTraceFrom u8 (foldState u8 st xs) ys := by
  induction xs with
  | nil => intro st; simp [entriesTraceFrom, foldState]
  | cons e rest ih =>
    intro st
    have hfs : foldState u8 st (e :: rest) = foldState u8 (stepState u8 st e) rest := by
      simp [foldState]
    calc entriesTraceFrom u8 st ((e :: rest) ++ ys)
        = entryRecs u8 st.offset e ++ entriesTraceFrom u8 (stepState u8 st e) (rest ++ ys) := rfl
      _ = entryRecs u8 st.offset e ++
            (entriesTraceFrom u8 (stepState u8 st e) rest ++
             entriesTraceFrom u8 (foldState u8 (stepState u8 st e) rest) ys) := by
          rw [ih]
      _ = (entryRecs u8 st.offset e ++ entriesTraceFrom u8 (stepState u8 st e) rest) ++
            entriesTraceFrom u8 (foldState u8 st (e :: rest)) ys := by
          rw [hfs, List.append_assoc]
      _ = entriesTraceFrom u8 st (e :: rest) ++
            entriesTraceFrom u8 (foldState u8 st (e :: rest)) ys := rfl

theorem zipTraceFrom_split_at (u8 : Bool) (st : ZipState) (xs ys : List ZipItem) :
    zipTraceFrom u8 st (xs ++ ys)
      = entriesTraceFrom u8 st xs ++ zipTraceFrom u8 (foldState u8 st xs) ys := by
  rw [zipTraceFrom, entriesTraceFrom_append, foldState_append, List.append_assoc]
  rfl

theorem foldState_offset (u8 : Bool) :
    ∀ (L : List ZipItem) (st : ZipState),
      (foldState u8 st L).offset
        = st.offset + (((entriesTraceFrom u8 st L).map ZRec.bytes).flatten).length := by
  intro L
  induction L with
  | nil => intro st; simp [foldState, entriesTraceFrom]
  | cons e rest ih =>
    intro st
    have hstep : foldState u8 st (e :: rest) = foldState u8 (stepState u8 st e) rest := by
      simp [foldState]
    rw [hstep, ih (stepState u8 st e)]
    have hoff : (stepState u8 st e).offset = st.offset + entryLen st.offset e := rfl
    rw [hoff]
    simp only [entriesTraceFrom, List.map_append, List.flatten_append, List.length_append]
    rw [entryRecs_bytesLen]
    omega

theorem foldState_count (u8 : Bool) :
    ∀ (L : List ZipItem) (st : ZipState),
      (foldState u8 st L).fileCount = st.fileCount + L.length := by
  intro L
  induction L with
  | nil => intro st; simp [foldState]
  | cons e rest ih =>
    intro st
    have hstep : foldState u8 st (e :: rest) = foldState u8 (stepState u8 st e) rest := by
      simp [foldState]
    rw [hstep, ih (stepState u8 st e)]
    have : (stepState u8 st e).fileCount = st.fileCount + 1 := rfl
    rw [this]
    simp
    omega

/-- Claim C2: for every item list and split index 0 < k < len(L), the
phase-1 bytes (all chunks up to but not including entry k's local
header) followed by the output of make_zip_iterator over the remaining
items, resumed with the central-directory snapshot after entry k-1,
previousFileCount k, startingOffset equal to the phase-1 byte count, and
the accumulated ZIP64 flag, are byte-for-byte the single-pass make_zip
output over the full list. -/
theorem pause_resume_exact (u8 : Bool) (L meta : List ZipItem) (k : Nat)
    (_h0 : 0 < k) (hk : k < L.length) :
    (makeZip u8 L meta).chunks.flatten
      = phase1Bytes u8 L k
        ++ (makeZipIterator u8
              { offset := (phase1Bytes u8 L k).length
                fileCount := k
                central := (foldState u8 initState (L.take k)).central
                needsZip64 := (foldState u8 initState (L.take k)).needsZip64 }
              (L.drop k)).flatten := by
  have hoffset : (foldState u8 initState (L.take k)).offset = (phase1Bytes u8 L k).length := by
    rw [foldState_offset u8 (L.take k) initState]
    simp [phase1Bytes, initState]
  have hcount : (foldState u8 initState (L.take k)).fileCount = k := by
    rw [foldState_count u8 (L.take k) initState]
    simp [initState]
    omega
  have hstate :
      ({ offset := (phase1Bytes u8 L k).length
         fileCount := k
         central := (foldState u8 initState (L.take k)).central
         needsZip64 := (foldState u8 initState (L.take k)).needsZip64 } : ZipState)
        = foldState u8 initState (L.take k) := by
    rcases hfs : foldState u8 initState (L.take k) with ⟨o, fc, ce, nz⟩
    rw [hfs] at hoffset hcount
    dsimp only at hoffset hcount
    dsimp only
    rw [← hoffset, ← hcount]
  rw [hstate]
  show (makeZipChunks u8 L).flatten = _
  rw [makeZipChunks, zipChunksFrom]
  conv_lhs => rw [← List.take_append_drop k L]
  rw [zipTraceFrom_split_at]
  rw [List.map_append, List.flatten_append]
  rfl

theorem pause_resume_exact_witness :
    (makeZip false [helloItem, sigItem] []).chunks.flatten
      = phase1Bytes false [helloItem, sigItem] 1
        ++ (makeZipIterator false
              { offset := (phase1Bytes false [helloItem, sigItem] 1).length
                fileCount := 1
                central := (foldState false initState ([helloItem, sigItem].take 1)).central
                needsZip64 := (foldState false initState ([helloItem, sigItem].take 1)).needsZip64 }
              ([helloItem, sigItem].drop 1)).flatten :=
  pause_resume_exact false [helloItem, sigItem] [] 1 (by decide) (by decide)

/-! The size predictor against the actual byte output. -/

theorem predictFrom_spec (u8 : Bool) :
    ∀ (L : List ZipItem) (st : ZipState),
      (∀ e ∈ L, e.declaredSize = some (entrySize e)) →
      predictFrom st.offset st.central.length st.needsZip64 st.fileCount L
        = some (st.offset + (archiveBytesFrom u8 st L).length) := by
  intro L
  induction L with
  | nil =>
    intro st _
    rw [predictFrom]
    have hb : (archiveBytesFrom u8 st []).length
        = st.central.length + (if archiveZip64 st then 76 else 0) + 22 :=
      finalRecs_bytesLen st
    rw [hb]
    rw [show archiveZip64 st
        = archiveZip64Of st.offset st.central.length st.needsZip64 st.fileCount from rfl]
    congr 1
    omega
  | cons e rest ih =>
    intro st hacc
    have hd : e.declaredSize = some (entrySize e) := hacc e (List.mem_cons_self e rest)
    simp only [predictFrom, hd]
    have hOff : (stepState u8 st e).offset
        = st.offset + 30 + e.encodedName.length +
          (if e.isFile then
            entrySize e + (if entryZip64Of (entrySize e) st.offset then 24 else 16)
           else 0) := by
      show st.offset + entryLen st.offset e = _
      rw [entryLen]
      simp only [entryNeedsZip64]
      omega
    have hCl : (stepState u8 st e).central.length
        = st.central.length + 46 + e.encodedName.length +
          (if entryZip64Of (entrySize e) st.offset then 28 else 0) := by
      show (st.central ++ centralHeader e (flagsOf u8 e) st.offset).length = _
      rw [List.length_append, centralHeader_length]
      simp only [entryNeedsZip64]
      omega
    have hNz : (stepState u8 st e).needsZip64
        = (st.needsZip64 || entryZip64Of (entrySize e) st.offset) := rfl
    have hFc : (stepState u8 st e).fileCount = st.fileCount + 1 := rfl
    rw [← hOff, ← hCl, ← hNz, ← hFc]
    rw [ih (stepState u8 st e) (fun x hx => hacc x (List.mem_cons_of_mem e hx))]
    congr 1
    have hsplit : (archiveBytesFrom u8 st (e :: rest)).length
        = entryLen st.offset e + (archiveBytesFrom u8 (stepState u8 st e) rest).length := by
      have htr : zipTraceFrom u8 st (e :: rest)
          = entryRecs u8 st.offset e ++ zipTraceFrom u8 (stepState u8 st e) rest := by
        rw [zipTraceFrom, zipTraceFrom]
        have h1 : entriesTraceFrom u8 st (e :: rest)
            = entryRecs u8 st.offset e ++ entriesTraceFrom u8 (stepState u8 st e) rest := rfl
        have h2 : foldState u8 st (e :: rest) = foldState u8 (stepState u8 st e) rest := by
          simp [foldState]
        rw [h1, h2, List.append_assoc]
      rw [archiveBytesFrom, zipChunksFrom, htr]
      simp only [List.map_append, List.flatten_append, List.length_append]
      rw [entryRecs_bytesLen]
      rfl
    rw [hsplit]
    rw [show (stepState u8 st e).offset = st.offset + entryLen st.offset e from rfl]
    omega

theorem predict_none_iff :
    ∀ (L : List ZipItem) (off cl : Nat) (nz : Bool) (fc : Nat),
      (predictFrom off cl nz fc L = none ↔ lacksSize L = true) := by
  intro L
  induction L with
  | nil => intro off cl nz fc; simp [predictFrom, lacksSize]
  | cons e rest ih =>
    intro off cl nz fc
    cases h : e.declaredSize with
    | none => simp [predictFrom, h, lacksSize]
    | some s => simp [predictFrom, h, lacksSize, ih]

/-- Claim C1: for every item list whose items all declare their true
sizes, the total byte length of the archive produced by make_zip equals
the predictor's value exactly at the byte; and the predictor returns
unknown exactly when some item lacks a declared size. -/
theorem predictor_exact (u8 : Bool) (L L2 : List ZipItem)
    (hacc : ∀ e ∈ L, e.declaredSize = some (entrySize e)) :
    predictLength L = some (archiveBytes u8 L).length
    ∧ (predictLength L2 = none ↔ lacksSize L2 = true) := by
  constructor
  · have h := predictFrom_spec u8 L initState hacc
    simpa [predictLength, initState, archiveBytes, makeZipChunks, archiveBytesFrom] using h
  · exact predict_none_iff L2 0 0 false 0

theorem predictor_exact_witness :
    predictLength [helloItem] = some (archiveBytes false [helloItem]).length
    ∧ (predictLength [nosizeItem] = none ↔ lacksSize [nosizeItem] = true) :=
  predictor_exact false [helloItem] [nosizeItem] (by decide)

/-! The terminal end-of-central-directory record in the byte output. -/

theorem drop_sub_suffix (a b : List Nat) :
    (a ++ b).drop ((a ++ b).length - b.length) = b := by
  have h : (a ++ b).length - b.length = a.length := by simp
  rw [h, List.drop_left]

theorem endRecord_take4 (c s o : Nat) :
    (endRecord c s o).take 4 = [0x50, 0x4b, 0x05, 0x06] := rfl

theorem endRecord_entriesField (c s o : Nat) :
    ((endRecord c s o).drop 10).take 2 = le16 (sentinel16 c) := rfl

theorem zip64_entries_extract (c s o : Nat) (rest : List Nat) :
    ((zip64EndRecord c s o ++ rest).drop 32).take 8 = le64 c := rfl

set_option maxRecDepth 20000 in
/-- Claim C3 (counterexample): a stored payload may itself contain the
end-of-central-directory signature bytes; for a single file whose four
payload bytes are 50 4b 05 06 the complete output contains the
signature twice, so it does not contain exactly one occurrence. -/
theorem eocd_sig_not_unique :
    countOcc [0x50, 0x4b, 0x05, 0x06] (archiveBytes false [sigItem]) = 2
    ∧ countOcc [0x50, 0x4b, 0x05, 0x06] (archiveBytes false [sigItem]) ≠ 1 := by
  decide

/-- Claim C3 (amended): the byte output of make_zip always ends with the
22-byte classic end-of-central-directory record: its first four bytes
are the signature 0x06054b50, its total-entries field holds len(L) or
the 0xFFFF sentinel when len(L) exceeds the 16-bit range, and in the
sentinel case the ZIP64 end-of-central-directory record precedes it with
its 64-bit entries field equal to len(L); the signature bytes may also
occur earlier in the output (inside stored payloads or other fields), so
the occurrence is terminal rather than unique. -/
theorem eocd_terminal (u8 : Bool) (L : List ZipItem) :
    22 ≤ (archiveBytes u8 L).length
    ∧ ((archiveBytes u8 L).drop ((archiveBytes u8 L).length - 22)).take 4
        = [0x50, 0x4b, 0x05, 0x06]
    ∧ (((archiveBytes u8 L).drop ((archiveBytes u8 L).length - 22)).drop 10).take 2
        = le16 (sentinel16 L.length)
    ∧ (((archiveBytes u8 L).drop ((archiveBytes u8 L).length - 98)).drop 32).take 8
        = (if 65536 ≤ L.length then le64 L.length
           else (((archiveBytes u8 L).drop ((archiveBytes u8 L).length - 98)).drop 32).take 8) := by
  set fs := foldState u8 initState L with hfs
  have hcnt : fs.fileCount = L.length := by
    rw [hfs, foldState_count]
    simp [initState]
  have hdec : archiveBytes u8 L
      = (((entriesTraceFrom u8 initState L).map ZRec.bytes).flatten ++ fs.central ++
         (if archiveZip64 fs then
            zip64EndRecord fs.fileCount fs.central.length fs.offset ++
            zip64Locator (fs.offset + fs.central.length)
          else []))
        ++ endRecord fs.fileCount fs.central.length fs.offset := by
    rw [archiveBytes, makeZipChunks, zipChunksFrom, zipTraceFrom]
    by_cases hz : archiveZip64 fs <;>
      simp [finalRecs, hz, ZRec.bytes, List.append_assoc, ← hfs]
  refine ⟨?_, ?_, ?_, ?_⟩
  · rw [hdec]
    simp
    omega
  · rw [hdec]
    rw [show (22 : Nat)
        = (endRecord fs.fileCount fs.central.length fs.offset).length from rfl]
    rw [drop_sub_suffix, endRecord_take4]
  · rw [hdec]
    rw [show (22 : Nat)
        = (endRecord fs.fileCount fs.central.length fs.offset).length from rfl]
    rw [drop_sub_suffix, endRecord_entriesField, hcnt]
  · by_cases hbig : 65536 ≤ L.length
    · rw [if_pos hbig]
      have hz : archiveZip64 fs = true := by
        simp [archiveZip64, archiveZip64Of, hcnt, hbig]
      have hdec2 : archiveBytes u8 L
          = (((entriesTraceFrom u8 initState L).map ZRec.bytes).flatten ++ fs.central)
            ++ (zip64EndRecord fs.fileCount fs.central.length fs.offset ++
                (zip64Locator (fs.offset + fs.central.length) ++
                 endRecord fs.fileCount fs.central.length fs.offset)) := by
        rw [hdec, if_pos hz]
        simp [List.append_assoc]
      rw [hdec2]
      rw [show (98 : Nat)
          = (zip64EndRecord fs.fileCount fs.central.length fs.offset ++
             (zip64Locator (fs.offset + fs.central.length) ++
              endRecord fs.fileCount fs.central.length fs.offset)).length by simp]
      rw [drop_sub_suffix, zip64_entries_extract, hcnt]
    · rw [if_neg hbig]
